import Mathlib

/-!
Shallow embedding of the expression evaluator in `src/main.js`
(`class Calculator`): `compute`, `evaluateExpression`, `computeMD`,
`computeAS`, `solve` and `__findInnermostBrackets`.

Modelling conventions:
* A JavaScript string is a `List Char`.
* A JavaScript number is `JSNum := Option Frac`, with `none` playing
  the role of `NaN` (the only non-finite value the evaluator can
  produce: `parseFloat` of a non-numeric buffer).  `Frac` is an exact
  rational with a normalized `Int` numerator / positive `Int`
  denominator; its operations agree with `ℚ` (bridge lemmas below) and
  with IEEE doubles on the small exact values the claims reach.  A
  kernel-reducible rational is used instead of `ℚ` because `Rat`'s
  gcd-normalization is well-founded recursion the kernel cannot
  evaluate.
* A value that is dynamically "number or string" is the inductive
  `Value`.
* A thrown exception is the `Except (List Char)` monad; the only
  `throw` in the evaluator is `new Error('Cannot divide by zero')`, and
  `compute` is the only catch.
* `parseFloat` is modelled on the calculator's character set (digits,
  `.`, sign, arbitrary junk tail): leading-whitespace skipping,
  exponents, `Infinity` and hex forms never arise from the calculator's
  inputs and are not modelled.
-/

set_option maxRecDepth 40000

/-- Euclid's algorithm with explicit fuel, so that the kernel can
reduce it (`Nat.gcd` itself is well-founded recursion).  `gcdGo f a b`
computes `Nat.gcd a b` whenever `a < f`. -/
def gcdGo : Nat → Nat → Nat → Nat
  | 0, _, b => b
  | _ + 1, 0, b => b
  | f + 1, a + 1, b => gcdGo f (b % (a + 1)) (a + 1)

/-- Kernel-reducible `Nat.gcd`. -/
def natGcd (a b : Nat) : Nat := gcdGo (a + 1) a b

/-- Exact rational number with executable, kernel-reducible
arithmetic: a normalized fraction (denominator positive and coprime to
the numerator for every value built by `Frac.normalize`). -/
structure Frac where
  num : Int
  den : Int
deriving DecidableEq

/-- Build the normalized fraction `n / d`: move the sign to the
numerator and divide out the gcd.  `d = 0` yields the sentinel `⟨0, 0⟩`,
unreachable in the evaluator (division is guarded by the zero check). -/
def Frac.normalize (n d : Int) : Frac :=
  if d = 0 then ⟨0, 0⟩
  else
    let n2 := if d < 0 then -n else n
    let d2 := if d < 0 then -d else d
    let g : Int := natGcd n2.natAbs d2.natAbs
    ⟨n2 / g, d2 / g⟩

instance (n : Nat) : OfNat Frac n := ⟨⟨n, 1⟩⟩

/-- Exact rational addition. -/
def Frac.add (x y : Frac) : Frac :=
  Frac.normalize (x.num * y.den + y.num * x.den) (x.den * y.den)

/-- Exact rational subtraction. -/
def Frac.sub (x y : Frac) : Frac :=
  Frac.normalize (x.num * y.den - y.num * x.den) (x.den * y.den)

/-- Exact rational multiplication. -/
def Frac.mul (x y : Frac) : Frac :=
  Frac.normalize (x.num * y.num) (x.den * y.den)

/-- Exact rational division (`y.num = 0` hits the `normalize`
sentinel; the evaluator never divides by zero thanks to its guard). -/
def Frac.div (x y : Frac) : Frac :=
  Frac.normalize (x.num * y.den) (x.den * y.num)

/-- Negation (preserves normalization). -/
def Frac.neg (x : Frac) : Frac := ⟨-x.num, x.den⟩

/-- The rational value of a `Frac`. -/
def Frac.toRat (x : Frac) : ℚ := (x.num : ℚ) / (x.den : ℚ)

/-- JavaScript number as produced by this evaluator: `none` is `NaN`. -/
abbrev JSNum := Option Frac

/-- Dynamic result type of `solve` / `evaluateExpression` / `compute`:
either a string (the echoed expression or an error text) or a number. -/
inductive Value where
  | str : List Char → Value
  | num : JSNum → Value
deriving DecidableEq

/-- JS `a + b` on numbers, with `NaN` absorbing. -/
def jsAdd (a b : JSNum) : JSNum :=
  match a, b with
  | some x, some y => some (x.add y)
  | _, _ => none

/-- JS `a - b` on numbers, with `NaN` absorbing. -/
def jsSub (a b : JSNum) : JSNum :=
  match a, b with
  | some x, some y => some (x.sub y)
  | _, _ => none

/-- JS `a * b` on numbers, with `NaN` absorbing. -/
def jsMul (a b : JSNum) : JSNum :=
  match a, b with
  | some x, some y => some (x.mul y)
  | _, _ => none

/-- JS `a / b` on numbers, with `NaN` absorbing.  The callback in
`computeMD` only divides after checking `b === 0`, so the `y = 0` case
(where JS would give `Infinity`) is unreachable in this program. -/
def jsDiv (a b : JSNum) : JSNum :=
  match a, b with
  | some x, some y => some (x.div y)
  | _, _ => none

/-- Numeric value of a decimal digit character. -/
def digitVal (c : Char) : Nat := c.toNat - '0'.toNat

/-- Value of a digit string read as a natural number (empty ↦ 0). -/
def natOfDigits (ds : List Char) : Nat :=
  ds.foldl (fun a c => 10 * a + digitVal c) 0

/-- Value of a digit string read as the fractional part after a decimal
point. -/
def fracOfDigits (ds : List Char) : Frac :=
  ds.foldr (fun c a => Frac.div (Frac.add ⟨digitVal c, 1⟩ a) ⟨10, 1⟩) ⟨0, 1⟩

/-- JS `parseFloat`: optional sign, longest prefix `digits [. digits]`;
`NaN` when no digit is consumed.  (Exponents / `Infinity` / whitespace
are outside the calculator's character set; see the file comment.) -/
def parseFloat (s : List Char) : JSNum :=
  let sr : Bool × List Char :=
    match s with
    | '-' :: r => (true, r)
    | '+' :: r => (false, r)
    | r => (false, r)
  let ip := sr.2.takeWhile Char.isDigit
  let rest2 := sr.2.dropWhile Char.isDigit
  let fp :=
    match rest2 with
    | '.' :: r => r.takeWhile Char.isDigit
    | _ => ([] : List Char)
  if ip.isEmpty && fp.isEmpty then none
  else
    let mag := Frac.add ⟨natOfDigits ip, 1⟩ (fracOfDigits fp)
    some (if sr.1 then mag.neg else mag)

/-- Decimal digits of a natural number (fuel recursion on the first
argument; `natToChars` supplies enough fuel). -/
def natToCharsGo : Nat → Nat → List Char
  | 0, _ => []
  | _ + 1, 0 => []
  | f + 1, n => natToCharsGo f (n / 10) ++ [Char.ofNat ('0'.toNat + n % 10)]

/-- Decimal representation of a natural number, as JS prints it. -/
def natToChars (n : Nat) : List Char :=
  if n = 0 then ['0'] else natToCharsGo (n + 1) n

/-- Smallest `k ≤ 30` with `den ∣ 10 ^ k`, i.e. the number of decimal
digits JS prints after the point for a fraction with this denominator. -/
def decPow (den : Nat) : Option Nat :=
  (List.range 31).find? (fun k => 10 ^ k % den = 0)

/-- JS `Number.prototype.toString` on the rationals this evaluator can
produce: integers print as decimal integers, finite decimal fractions
print exactly (shortest form, as JS does for the small decimals reached
here).  A rational with no finite decimal expansion is printed as
`num/den`; JS would print a 17-significant-digit decimal there, but no
claim reaches such a value. -/
def ratToChars (q : Frac) : List Char :=
  let sgn : List Char := if q.num < 0 then ['-'] else []
  let n := q.num.natAbs
  let d := q.den.toNat
  if d = 1 then sgn ++ natToChars n
  else
    match decPow d with
    | some k =>
      let ds0 := natToChars (n * 10 ^ k / d)
      let ds := if ds0.length ≤ k
                then List.replicate (k + 1 - ds0.length) '0' ++ ds0
                else ds0
      sgn ++ ds.take (ds.length - k) ++ '.' :: ds.drop (ds.length - k)
    | none => sgn ++ natToChars n ++ '/' :: natToChars d

/-- JS template stringification of a number: `NaN` prints as `"NaN"`. -/
def jsNumToChars (v : JSNum) : List Char :=
  match v with
  | none => ['N', 'a', 'N']
  | some q => ratToChars q

/-- JS template stringification `${expr}` of a dynamic value. -/
def toExprChars (v : Value) : List Char :=
  match v with
  | .str s => s
  | .num n => jsNumToChars n

/-- Character class of the regex `/[^0-9.]/` used in `solve`: digit or
decimal point. -/
def isNumChar (c : Char) : Bool := c.isDigit || c == '.'

/-- The test `/[^0-9.]/.test(buf)` from `solve` (line 77 of
`src/main.js`): does the buffer contain a non-digit, non-dot
character? -/
def hasBadChar (buf : List Char) : Bool :=
  buf.any (fun c => !(isNumChar c))

/-- The character scan of `solve` (lines 63–73 of `src/main.js`):
walk the expression; a character in `ops` flushes the buffer through
`parseFloat` into the number list and records the operator, any other
character is appended to the buffer.  Returns
`(detectedNums, operations, final numString)`. -/
def scanGo (ops : List Char) :
    List Char → List JSNum → List Char → List Char →
    List JSNum × List Char × List Char
  | [], nums, opcs, buf => (nums, opcs, buf)
  | c :: rest, nums, opcs, buf =>
    if c ∈ ops then scanGo ops rest (nums ++ [parseFloat buf]) (opcs ++ [c]) []
    else scanGo ops rest nums opcs (buf ++ [c])

/-- The fold of `solve` (lines 84–87 of `src/main.js`):
`result = operateCallback(result, detectedNums[i], operations[i-1])`
left-to-right, in the exception monad. -/
def foldPairs (cb : JSNum → JSNum → Char → Except (List Char) JSNum) :
    JSNum → List (JSNum × Char) → Except (List Char) JSNum
  | acc, [] => .ok acc
  | acc, p :: ps =>
    match cb acc p.1 p.2 with
    | .error e => .error e
    | .ok r => foldPairs cb r ps

/-- `Calculator.solve` (lines 56–90 of `src/main.js`): scan, then echo
the expression unchanged if the trailing buffer fails `/^[0-9.]*$/`,
otherwise push the last number and left-fold with the callback. -/
def solve (expr : List Char) (ops : List Char)
    (cb : JSNum → JSNum → Char → Except (List Char) JSNum) :
    Except (List Char) Value :=
  let t := scanGo ops expr [] [] []
  if hasBadChar t.2.2 then .ok (.str expr)
  else
    match t.1 ++ [parseFloat t.2.2] with
    | [] => .ok (.num none)
    | n0 :: rest =>
      match foldPairs cb n0 (rest.zip t.2.1) with
      | .error e => .error e
      | .ok r => .ok (.num r)

/-- The message of `new Error('Cannot divide by zero')`. -/
def divMsg : List Char := "Cannot divide by zero".data

/-- The multiplication/division callback of `computeMD` (lines 28–32 of
`src/main.js`): `*` multiplies; otherwise throw when `b === 0`, else
divide. -/
def mdCb (a b : JSNum) (op : Char) : Except (List Char) JSNum :=
  if op = '*' then .ok (jsMul a b)
  else if b = some 0 then .error divMsg
  else .ok (jsDiv a b)

/-- Pure value of the addition/subtraction callback of `computeAS`
(lines 41–43 of `src/main.js`): `+` adds, any other operator
subtracts. -/
def asVal (a b : JSNum) (op : Char) : JSNum :=
  if op = '+' then jsAdd a b else jsSub a b

/-- The addition/subtraction callback of `computeAS`: never throws. -/
def asCb (a b : JSNum) (op : Char) : Except (List Char) JSNum :=
  .ok (asVal a b op)

/-- `Calculator.computeMD` (lines 26–33 of `src/main.js`). -/
def computeMD (expr : List Char) : Except (List Char) Value :=
  solve expr ['*', '/'] mdCb

/-- `Calculator.computeAS` (lines 39–44 of `src/main.js`). -/
def computeAS (expr : List Char) : Except (List Char) Value :=
  solve expr ['+', '-'] asCb

/-- JS `expr.indexOf(ch, i)` helper: scan a suffix, tracking the
absolute index of its head. -/
def idxFromGo (ch : Char) : List Char → Nat → Option Nat
  | [], _ => none
  | x :: xs, i => if x = ch then some i else idxFromGo ch xs (i + 1)

/-- JS `expr.indexOf(ch, start)`: index of the first occurrence of `ch`
at position `≥ start`, or `none` (JS `-1`). -/
def indexOfFrom (l : List Char) (ch : Char) (start : Nat) : Option Nat :=
  idxFromGo ch (l.drop start) start

/-- The backward loop of `__findInnermostBrackets` (lines 133–143 of
`src/main.js`): `findInnerGo l (i+1)` inspects index `i` and recurses
downward. -/
def findInnerGo (l : List Char) : Nat → Option (Nat × Nat)
  | 0 => none
  | i + 1 =>
    if l[i]? = some '(' then
      match indexOfFrom l ')' i with
      | some c => some (i, c)
      | none => findInnerGo l i
    else findInnerGo l i

/-- `Calculator.__findInnermostBrackets` (lines 129–146 of
`src/main.js`): scan from the last character to the first; on a `(`
with a `)` at some position `≥` it, return the pair; otherwise `none`
(JS `null`). -/
def findInnermostBrackets (l : List Char) : Option (Nat × Nat) :=
  findInnerGo l l.length

/-- Error text of the fuel-exhaustion branch of `evalGo`.  The JS
`while` loop always terminates because each bracket substitution
removes one `(` and inserts a bracket-free string, so with fuel
`length + 1 ≥ count of brackets + 1` this branch is unreachable; it
exists only to make the recursion structural. -/
def fuelMsg : List Char := "fuel exhausted".data

/-- `Calculator.evaluateExpression` (lines 97–122 of `src/main.js`),
with explicit fuel for the bracket loop: while a bracket pair is found,
evaluate the slice strictly inside it recursively and splice the
stringified result back (`leftOuter + result + rightOuter`), then
re-scan; once no brackets remain, run `computeMD` and feed its
stringified result to `computeAS`. -/
def evalGo : Nat → List Char → Except (List Char) Value
  | 0, _ => .error fuelMsg
  | fuel + 1, expr =>
    match findInnermostBrackets expr with
    | some oc =>
      match evalGo fuel ((expr.drop (oc.1 + 1)).take (oc.2 - (oc.1 + 1))) with
      | .error e => .error e
      | .ok v => evalGo fuel (expr.take oc.1 ++ toExprChars v ++ expr.drop (oc.2 + 1))
    | none =>
      match computeMD expr with
      | .error e => .error e
      | .ok md => computeAS (toExprChars md)

/-- `evaluateExpression` at its entry point, with enough fuel for any
input (one bracket pair consumes at least one character). -/
def evaluateExpression (s : List Char) : Except (List Char) Value :=
  evalGo (s.length + 1) s

/-- The prefix JS template stringification puts before an `Error`
message: `` `${new Error(msg)}` `` is `"Error: " + msg`. -/
def errorTag : List Char := "Error: ".data

/-- `Calculator.compute` (lines 13–20 of `src/main.js`): evaluate, and
turn a thrown error into its display string. -/
def compute (s : String) : Value :=
  match evaluateExpression s.data with
  | .ok v => v
  | .error e => .str (errorTag ++ e)

/-- Concatenation of `operator :: numberToken` segments: the tail of a
flat one-level expression after its first number token. -/
def renderTail (rest : List (Char × List Char)) : List Char :=
  (rest.map (fun p => p.1 :: p.2)).flatten

/-- A flat one-level expression: a first number token followed by
alternating operators and number tokens. -/
def renderFlat (d0 : List Char) (rest : List (Char × List Char)) : List Char :=
  d0 ++ renderTail rest

/-- The numbers the `solve` scan pushes while walking `renderTail`:
each operator flushes the preceding token through `parseFloat`. -/
def expNums (buf : List Char) : List (Char × List Char) → List JSNum
  | [] => []
  | (_, d) :: rs => parseFloat buf :: expNums d rs

/-- The trailing buffer left after the `solve` scan walks
`renderTail`. -/
def lastTok (buf : List Char) : List (Char × List Char) → List Char
  | [] => buf
  | (_, d) :: rs => lastTok d rs

/-- State of a `Calculator` instance: `constructor() { }` declares no
fields, so the state is trivial. -/
def CalculatorState : Type := Unit

/-- `compute` as a method on a `Calculator` instance: it reads no field
and writes no field, so it returns the instance unchanged and its
result does not depend on the instance. -/
def computeWithState (st : CalculatorState) (s : String) :
    Value × CalculatorState :=
  (compute s, st)

/-- Run a sequence of `compute` calls against one `Calculator`
instance, threading the instance state through. -/
def runCalls (st : CalculatorState) : List String → List Value × CalculatorState
  | [] => ([], st)
  | e :: es =>
    let r := computeWithState st e
    let rs := runCalls r.2 es
    (r.1 :: rs.1, rs.2)

/-! ## Soundness of the executable rationals against `ℚ` -/

/-- The fuel-based Euclid agrees with `Nat.gcd` when given enough
fuel. -/
theorem gcdGo_eq_gcd (f a b : Nat) (h : a < f) : gcdGo f a b = Nat.gcd a b := by
  induction f generalizing a b with
  | zero => omega
  | succ f ih =>
    cases a with
    | zero => simp [gcdGo]
    | succ a =>
      rw [gcdGo, Nat.gcd_succ]
      exact ih (b % (a + 1)) (a + 1) (by have := Nat.mod_lt b (y := a + 1) (by omega); omega)

/-- `natGcd` is `Nat.gcd`. -/
theorem natGcd_eq (a b : Nat) : natGcd a b = Nat.gcd a b :=
  gcdGo_eq_gcd (a + 1) a b (Nat.lt_succ_self a)

/-- Dividing numerator and denominator by their gcd preserves the
rational value. -/
theorem toRat_norm_aux (n d : Int) (hd : d ≠ 0) :
    ((n / (natGcd n.natAbs d.natAbs : Nat) : Int) : ℚ) /
      ((d / (natGcd n.natAbs d.natAbs : Nat) : Int) : ℚ) = (n : ℚ) / (d : ℚ) := by
  have hg : (natGcd n.natAbs d.natAbs : Int) = (Int.gcd n d : Int) := by
    rw [natGcd_eq]; rfl
  rw [hg]
  have hg0 : (Int.gcd n d : Int) ≠ 0 := by
    simp only [ne_eq, Int.natCast_eq_zero, Int.gcd_eq_zero_iff, not_and]
    intro _
    exact hd
  rw [Int.cast_div_charZero Int.gcd_dvd_left,
    Int.cast_div_charZero Int.gcd_dvd_right]
  have hgq : ((Int.gcd n d : Int) : ℚ) ≠ 0 := Int.cast_ne_zero.mpr hg0
  rw [div_div_div_cancel_right₀ hgq]

/-- `Frac.normalize` builds the fraction `n / d`. -/
theorem toRat_normalize (n d : Int) (hd : d ≠ 0) :
    (Frac.normalize n d).toRat = (n : ℚ) / (d : ℚ) := by
  rw [Frac.normalize, if_neg hd]
  by_cases hneg : d < 0
  · simp only [if_pos hneg, Frac.toRat]
    have hnd : -d ≠ 0 := by omega
    rw [toRat_norm_aux (-n) (-d) hnd]
    push_cast
    rw [neg_div_neg_eq]
  · simp only [if_neg hneg, Frac.toRat]
    exact toRat_norm_aux n d hd

/-- Numerals denote themselves. -/
theorem toRat_ofNat (n : Nat) : Frac.toRat ⟨(n : Int), 1⟩ = (n : ℚ) := by
  simp [Frac.toRat]

/-- `Frac.add` is rational addition (on well-formed fractions). -/
theorem toRat_add (x y : Frac) (hx : x.den ≠ 0) (hy : y.den ≠ 0) :
    (x.add y).toRat = x.toRat + y.toRat := by
  have hx2 : (x.den : ℚ) ≠ 0 := Int.cast_ne_zero.mpr hx
  have hy2 : (y.den : ℚ) ≠ 0 := Int.cast_ne_zero.mpr hy
  rw [Frac.add, toRat_normalize _ _ (mul_ne_zero hx hy), Frac.toRat, Frac.toRat]
  push_cast
  field_simp

/-- `Frac.sub` is rational subtraction (on well-formed fractions). -/
theorem toRat_sub (x y : Frac) (hx : x.den ≠ 0) (hy : y.den ≠ 0) :
    (x.sub y).toRat = x.toRat - y.toRat := by
  have hx2 : (x.den : ℚ) ≠ 0 := Int.cast_ne_zero.mpr hx
  have hy2 : (y.den : ℚ) ≠ 0 := Int.cast_ne_zero.mpr hy
  rw [Frac.sub, toRat_normalize _ _ (mul_ne_zero hx hy), Frac.toRat, Frac.toRat]
  push_cast
  field_simp
  ring

/-- `Frac.mul` is rational multiplication (on well-formed fractions). -/
theorem toRat_mul (x y : Frac) (hx : x.den ≠ 0) (hy : y.den ≠ 0) :
    (x.mul y).toRat = x.toRat * y.toRat := by
  have hx2 : (x.den : ℚ) ≠ 0 := Int.cast_ne_zero.mpr hx
  have hy2 : (y.den : ℚ) ≠ 0 := Int.cast_ne_zero.mpr hy
  rw [Frac.mul, toRat_normalize _ _ (mul_ne_zero hx hy), Frac.toRat, Frac.toRat]
  push_cast
  field_simp

/-- `Frac.div` is rational division (on well-formed fractions with a
nonzero divisor). -/
theorem toRat_div (x y : Frac) (hx : x.den ≠ 0) (hy : y.den ≠ 0)
    (hy0 : y.num ≠ 0) : (x.div y).toRat = x.toRat / y.toRat := by
  have hx2 : (x.den : ℚ) ≠ 0 := Int.cast_ne_zero.mpr hx
  have hy2 : (y.den : ℚ) ≠ 0 := Int.cast_ne_zero.mpr hy
  have hy02 : (y.num : ℚ) ≠ 0 := Int.cast_ne_zero.mpr hy0
  rw [Frac.div, toRat_normalize _ _ (mul_ne_zero hx hy0), Frac.toRat, Frac.toRat]
  push_cast
  field_simp

/-! ## General lemmas about the `solve` scan and fold -/

/-- The scan processes a concatenation left part first. -/
theorem scanGo_append (ops xs ys : List Char) (nums : List JSNum)
    (opcs buf : List Char) :
    scanGo ops (xs ++ ys) nums opcs buf =
      scanGo ops ys (scanGo ops xs nums opcs buf).1
        (scanGo ops xs nums opcs buf).2.1 (scanGo ops xs nums opcs buf).2.2 := by
  induction xs generalizing nums opcs buf with
  | nil => simp [scanGo]
  | cons c rest ih =>
    by_cases h : c ∈ ops <;> simp [scanGo, h, ih]

/-- Characters that are not operators of the level only grow the
buffer. -/
theorem scanGo_all_nonop (ops ds : List Char) (nums : List JSNum)
    (opcs buf : List Char) (h : ∀ c ∈ ds, c ∉ ops) :
    scanGo ops ds nums opcs buf = (nums, opcs, buf ++ ds) := by
  induction ds generalizing buf with
  | nil => simp [scanGo]
  | cons c rest ih =>
    have hc : c ∉ ops := h c (List.mem_cons_self c rest)
    rw [scanGo, if_neg hc, ih _ (fun x hx => h x (List.mem_cons_of_mem c hx))]
    simp

/-- The scan pushes numbers and operators in lockstep. -/
theorem scanGo_len (ops cs : List Char) (nums : List JSNum)
    (opcs buf : List Char) (h : nums.length = opcs.length) :
    (scanGo ops cs nums opcs buf).1.length =
      (scanGo ops cs nums opcs buf).2.1.length := by
  induction cs generalizing nums opcs buf with
  | nil => simpa [scanGo] using h
  | cons c rest ih =>
    by_cases hc : c ∈ ops
    · rw [scanGo, if_pos hc]
      exact ih _ _ _ (by simp [h])
    · rw [scanGo, if_neg hc]
      exact ih _ _ _ h

/-- The add/subtract callback never throws: the fold computes the plain
left fold of `asVal`. -/
theorem foldPairs_asCb (acc : JSNum) (ps : List (JSNum × Char)) :
    foldPairs asCb acc ps =
      .ok (ps.foldl (fun a p => asVal a p.1 p.2) acc) := by
  induction ps generalizing acc with
  | nil => rfl
  | cons p ps ih => rw [foldPairs]; exact ih _

/-- Adding or subtracting `NaN` yields `NaN`. -/
theorem asVal_none (a : JSNum) (op : Char) : asVal a none op = none := by
  cases a <;> by_cases h : op = '+' <;> simp [asVal, jsAdd, jsSub, h]

/-- If the trailing buffer fails the `/^[0-9.]*$/` check, `solve`
echoes the expression. -/
theorem solve_echo (expr ops : List Char)
    (cb : JSNum → JSNum → Char → Except (List Char) JSNum)
    (h : hasBadChar (scanGo ops expr [] [] []).2.2 = true) :
    solve expr ops cb = .ok (.str expr) := by
  simp [solve, h]

/-- Digit/dot characters are not operators of either level. -/
theorem isNumChar_not_op (c : Char) (h : isNumChar c = true) :
    c ∉ (['*', '/'] : List Char) ∧ c ∉ (['+', '-'] : List Char) := by
  refine ⟨fun hc => ?_, fun hc => ?_⟩ <;>
    · simp only [List.mem_cons, List.mem_singleton, List.not_mem_nil,
        or_false] at hc
      rcases hc with rfl | rfl <;> exact absurd h (by decide)

/-- A buffer of digit/dot characters passes the `/^[0-9.]*$/` check. -/
theorem hasBadChar_of_numeric (buf : List Char)
    (h : ∀ c ∈ buf, isNumChar c = true) : hasBadChar buf = false := by
  simp only [hasBadChar, List.any_eq_false, Bool.not_eq_true']
  intro c hc
  simp [h c hc]

/-- The scan over the tail of a rendered one-level expression pushes
exactly the tokens' `parseFloat` values and operators, leaving the last
token in the buffer. -/
theorem scanGo_renderTail (ops : List Char) (rest : List (Char × List Char))
    (nums : List JSNum) (opcs buf : List Char)
    (hrest : ∀ p ∈ rest, p.1 ∈ ops ∧ ∀ c ∈ p.2, c ∉ ops) :
    scanGo ops (renderTail rest) nums opcs buf =
      (nums ++ expNums buf rest, opcs ++ rest.map Prod.fst, lastTok buf rest) := by
  induction rest generalizing nums opcs buf with
  | nil => simp [renderTail, scanGo, expNums, lastTok]
  | cons p rs ih =>
    obtain ⟨o, d⟩ := p
    have h1 : o ∈ ops := (hrest (o, d) (List.mem_cons_self _ _)).1
    have h2 : ∀ c ∈ d, c ∉ ops := (hrest (o, d) (List.mem_cons_self _ _)).2
    have hTail : renderTail ((o, d) :: rs) = o :: (d ++ renderTail rs) := by
      simp [renderTail]
    rw [hTail, scanGo, if_pos h1, scanGo_append,
      scanGo_all_nonop ops d _ _ [] h2,
      ih _ _ _ (fun q hq => hrest q (List.mem_cons_of_mem _ hq))]
    simp [expNums, lastTok]

/-- The last token ends up in the buffer: appending its `parseFloat`
value to the pushed numbers lists every token's value in order. -/
theorem expNums_snoc (d0 : List Char) (rest : List (Char × List Char)) :
    expNums d0 rest ++ [parseFloat (lastTok d0 rest)] =
      parseFloat d0 :: rest.map (fun p => parseFloat p.2) := by
  induction rest generalizing d0 with
  | nil => simp [expNums, lastTok]
  | cons p rs ih =>
    obtain ⟨o, d⟩ := p
    simp [expNums, lastTok, ih]

/-- Zipping the parsed values with the operators recovers the token
pairs. -/
theorem zip_parse_fst (rest : List (Char × List Char)) :
    (rest.map (fun p => parseFloat p.2)).zip (rest.map Prod.fst) =
      rest.map (fun p => (parseFloat p.2, p.1)) := by
  induction rest with
  | nil => rfl
  | cons p rs ih => simp [ih]

/-- The last token of a rendered expression is one of its tokens. -/
theorem lastTok_cases (d0 : List Char) (rest : List (Char × List Char)) :
    lastTok d0 rest = d0 ∨ ∃ p ∈ rest, lastTok d0 rest = p.2 := by
  induction rest generalizing d0 with
  | nil => exact Or.inl rfl
  | cons p rs ih =>
    obtain ⟨o, d⟩ := p
    rcases ih d with h | ⟨q, hq, hEq⟩
    · exact Or.inr ⟨(o, d), List.mem_cons_self _ _, h⟩
    · exact Or.inr ⟨q, List.mem_cons_of_mem _ hq, hEq⟩

/-! ## Characterization of `indexOfFrom` and the backward bracket scan -/

/-- `idxFromGo` finds the first match, reporting `start + offset`. -/
theorem idxFromGo_eq_some (ch : Char) (xs : List Char) (i j : Nat) :
    idxFromGo ch xs i = some j ↔
      ∃ k, j = i + k ∧ xs[k]? = some ch ∧ ∀ m, m < k → xs[m]? ≠ some ch := by
  induction xs generalizing i with
  | nil => simp [idxFromGo]
  | cons x rest ih =>
    by_cases hx : x = ch
    · subst hx
      rw [idxFromGo, if_pos rfl]
      constructor
      · intro h
        injection h with h
        subst h
        exact ⟨0, by simp, by simp, by omega⟩
      · rintro ⟨k, rfl, hk, hmin⟩
        cases k with
        | zero => simp
        | succ k => exact (hmin 0 (Nat.succ_pos k) (by simp)).elim
    · rw [idxFromGo, if_neg hx, ih]
      constructor
      · rintro ⟨k, rfl, hk, hmin⟩
        refine ⟨k + 1, by omega, by simpa using hk, ?_⟩
        intro m hm
        cases m with
        | zero => simpa using hx
        | succ m => simpa using hmin m (by omega)
      · rintro ⟨k, hj, hk, hmin⟩
        cases k with
        | zero => exact absurd (by simpa using hk) hx
        | succ k =>
          exact ⟨k, by omega, by simpa using hk,
            fun m hm => by simpa using hmin (m + 1) (by omega)⟩

/-- `idxFromGo` returns `none` exactly when there is no match. -/
theorem idxFromGo_eq_none (ch : Char) (xs : List Char) (i : Nat) :
    idxFromGo ch xs i = none ↔ ∀ k : Nat, xs[k]? ≠ some ch := by
  induction xs generalizing i with
  | nil => simp [idxFromGo]
  | cons x rest ih =>
    by_cases hx : x = ch
    · subst hx
      rw [idxFromGo, if_pos rfl]
      constructor
      · intro h; exact absurd h (by simp)
      · intro h; exact absurd (by simp) (h 0)
    · rw [idxFromGo, if_neg hx, ih]
      constructor
      · intro h k
        cases k with
        | zero => simpa using hx
        | succ k => simpa using h k
      · intro h k
        simpa using h (k + 1)

/-- JS `indexOf(ch, s) ≠ -1`: the result is the first index `≥ s`
holding `ch`. -/
theorem indexOfFrom_eq_some (l : List Char) (ch : Char) (s j : Nat) :
    indexOfFrom l ch s = some j ↔
      s ≤ j ∧ l[j]? = some ch ∧ ∀ m, s ≤ m → m < j → l[m]? ≠ some ch := by
  rw [indexOfFrom, idxFromGo_eq_some]
  constructor
  · rintro ⟨k, rfl, hk, hmin⟩
    rw [List.getElem?_drop] at hk
    refine ⟨Nat.le_add_right s k, hk, ?_⟩
    intro m hsm hmj
    have hlt : m - s < k := by omega
    have hthis := hmin (m - s) hlt
    rw [List.getElem?_drop, show s + (m - s) = m by omega] at hthis
    exact hthis
  · rintro ⟨hsj, hj, hmin⟩
    refine ⟨j - s, by omega, ?_, ?_⟩
    · rw [List.getElem?_drop, show s + (j - s) = j by omega]
      exact hj
    · intro m hm
      rw [List.getElem?_drop]
      exact hmin (s + m) (Nat.le_add_right s m) (by omega)

/-- JS `indexOf(ch, s) = -1`: no occurrence at any index `≥ s`. -/
theorem indexOfFrom_eq_none (l : List Char) (ch : Char) (s : Nat) :
    indexOfFrom l ch s = none ↔ ∀ m, s ≤ m → l[m]? ≠ some ch := by
  rw [indexOfFrom, idxFromGo_eq_none]
  constructor
  · intro h m hsm
    have hthis := h (m - s)
    rw [List.getElem?_drop, show s + (m - s) = m by omega] at hthis
    exact hthis
  · intro h k
    rw [List.getElem?_drop]
    exact h (s + k) (Nat.le_add_right s k)

/-- The backward scan returns `none` exactly when every `(` below the
cursor has no `)` at or after it. -/
theorem findInnerGo_eq_none (l : List Char) (n : Nat) :
    findInnerGo l n = none ↔
      ∀ i, i < n → l[i]? = some '(' → indexOfFrom l ')' i = none := by
  induction n with
  | zero => simp [findInnerGo]
  | succ n ih =>
    rw [findInnerGo]
    by_cases hl : l[n]? = some '('
    · rw [if_pos hl]
      cases hIdx : indexOfFrom l ')' n with
      | some c =>
        simp only [hIdx]
        constructor
        · intro h; exact absurd h (by simp)
        · intro h
          rw [h n (Nat.lt_succ_self n) hl] at hIdx
          exact absurd hIdx (by simp)
      | none =>
        simp only [hIdx, ih]
        constructor
        · intro h i hi hgi
          rcases Nat.lt_succ_iff_lt_or_eq.mp hi with h2 | rfl
          · exact h i h2 hgi
          · exact hIdx
        · intro h i hi hgi
          exact h i (Nat.lt_succ_of_lt hi) hgi
    · rw [if_neg hl, ih]
      constructor
      · intro h i hi hgi
        rcases Nat.lt_succ_iff_lt_or_eq.mp hi with h2 | rfl
        · exact h i h2 hgi
        · exact absurd hgi hl
      · intro h i hi hgi
        exact h i (Nat.lt_succ_of_lt hi) hgi

/-- The backward scan's successful answer: the open bracket is below
the cursor, it holds `(`, the close index is `indexOf`'s answer, and no
later `(` below the cursor has any `)` after it (the scan would have
stopped there first). -/
theorem findInnerGo_eq_some (l : List Char) (n o c : Nat)
    (h : findInnerGo l n = some (o, c)) :
    o < n ∧ l[o]? = some '(' ∧ indexOfFrom l ')' o = some c ∧
      ∀ i, o < i → i < n → l[i]? = some '(' → indexOfFrom l ')' i = none := by
  induction n with
  | zero => exact absurd h (by simp [findInnerGo])
  | succ n ih =>
    rw [findInnerGo] at h
    by_cases hl : l[n]? = some '('
    · rw [if_pos hl] at h
      cases hIdx : indexOfFrom l ')' n with
      | some c2 =>
        rw [hIdx] at h
        injection h with h2
        obtain ⟨rfl, rfl⟩ := Prod.mk.inj h2
        refine ⟨Nat.lt_succ_self _, hl, hIdx, ?_⟩
        intro i hoi hin
        exact absurd hin (by omega)
      | none =>
        rw [hIdx] at h
        obtain ⟨h1, h2, h3, h4⟩ := ih h
        refine ⟨Nat.lt_succ_of_lt h1, h2, h3, ?_⟩
        intro i hoi hin hgi
        rcases Nat.lt_succ_iff_lt_or_eq.mp hin with h5 | rfl
        · exact h4 i hoi h5 hgi
        · exact hIdx
    · rw [if_neg hl] at h
      obtain ⟨h1, h2, h3, h4⟩ := ih h
      refine ⟨Nat.lt_succ_of_lt h1, h2, h3, ?_⟩
      intro i hoi hin hgi
      rcases Nat.lt_succ_iff_lt_or_eq.mp hin with h5 | rfl
      · exact h4 i hoi h5 hgi
      · exact absurd hgi hl

/-! ## Lemmas for trailing-operator expressions -/

/-- A string with no `(` has no bracket pair. -/
theorem findInnermost_of_no_open (l : List Char) (h : '(' ∉ l) :
    findInnermostBrackets l = none := by
  rw [show findInnermostBrackets l = findInnerGo l l.length from rfl,
    findInnerGo_eq_none]
  intro i _ hgi
  exact absurd (List.getElem?_mem hgi) h

/-- Scanning up to a final non-operator character leaves it at the end
of the trailing buffer. -/
theorem scanGo_last_nonop (ops xs : List Char) (c : Char) (h : c ∉ ops) :
    (scanGo ops (xs ++ [c]) [] [] []).2.2 =
      (scanGo ops xs [] [] []).2.2 ++ [c] := by
  rw [scanGo_append]
  simp [scanGo, h]

/-- Scanning up to a final operator flushes the buffer and leaves the
trailing buffer empty. -/
theorem scanGo_last_op (ops xs : List Char) (c : Char) (h : c ∈ ops) :
    scanGo ops (xs ++ [c]) [] [] [] =
      ((scanGo ops xs [] [] []).1 ++ [parseFloat (scanGo ops xs [] [] []).2.2],
        (scanGo ops xs [] [] []).2.1 ++ [c], []) := by
  rw [scanGo_append]
  simp [scanGo, h]

/-- A buffer ending in a non-numeric character fails the
`/^[0-9.]*$/` check. -/
theorem hasBadChar_append (buf : List Char) (c : Char)
    (h : isNumChar c = false) : hasBadChar (buf ++ [c]) = true := by
  simp [hasBadChar, h]

/-- The add/subtract fold of a pair list ending in a `NaN` operand is
`NaN`. -/
theorem foldPairs_asCb_last_none (n0 : JSNum) (ps : List (JSNum × Char))
    (c : Char) : foldPairs asCb n0 (ps ++ [(none, c)]) = .ok none := by
  rw [foldPairs_asCb, List.foldl_append]
  simp [asVal_none]

/-- One add/subtract fold step with aligned lengths: appending a `NaN`
number and one more operator drives the whole fold to `NaN`. -/
theorem foldPairs_zip_last_none (nums : List JSNum) (opcs : List Char)
    (h : nums.length = opcs.length) (b n0 : JSNum) (rest : List JSNum)
    (c : Char) (hsplit : nums ++ [b] = n0 :: rest) :
    foldPairs asCb n0 ((rest ++ [none]).zip (opcs ++ [c])) = .ok none := by
  have hlen : rest.length = opcs.length := by
    have hc := congrArg List.length hsplit
    simp at hc
    omega
  rw [List.zip_append hlen]
  simpa using foldPairs_asCb_last_none n0 (rest.zip opcs) c

/-- `computeMD` of an expression ending in `+` or `-` echoes it: its
trailing buffer ends with that character and fails the check. -/
theorem computeMD_echo_last_pm (xs : List Char) (c : Char)
    (hc : c = '+' ∨ c = '-') :
    computeMD (xs ++ [c]) = .ok (.str (xs ++ [c])) := by
  apply solve_echo
  rw [scanGo_last_nonop]
  · apply hasBadChar_append
    rcases hc with rfl | rfl <;> rfl
  · rcases hc with rfl | rfl <;> decide

/-- `computeAS` of an expression ending in `+` or `-` returns the
number `NaN`: the empty trailing buffer passes the check, parses to
`NaN`, and the final fold step absorbs it. -/
theorem computeAS_last_pm (xs : List Char) (c : Char)
    (hc : c = '+' ∨ c = '-') :
    computeAS (xs ++ [c]) = .ok (.num none) := by
  have hcin : c ∈ (['+', '-'] : List Char) := by
    rcases hc with rfl | rfl <;> decide
  rw [computeAS]
  simp only [solve]
  rw [scanGo_last_op ['+', '-'] xs c hcin]
  have hnil : hasBadChar [] = false := rfl
  have hpf : parseFloat [] = none := rfl
  simp only [hnil, hpf, Bool.false_eq_true, if_false]
  cases hsplit : (scanGo ['+', '-'] xs [] [] []).1 ++
      [parseFloat (scanGo ['+', '-'] xs [] [] []).2.2] with
  | nil => exact absurd hsplit (by simp)
  | cons n0 rest =>
    have hlen : (scanGo ['+', '-'] xs [] [] []).1.length =
        (scanGo ['+', '-'] xs [] [] []).2.1.length :=
      scanGo_len ['+', '-'] xs [] [] [] rfl
    have hfold := foldPairs_zip_last_none (scanGo ['+', '-'] xs [] [] []).1
      (scanGo ['+', '-'] xs [] [] []).2.1 hlen
      (parseFloat (scanGo ['+', '-'] xs [] [] []).2.2) n0 rest c hsplit
    simp [hfold]

/-- `compute` of a bracket-free expression ending in `+` or `-` is the
number `NaN`: the multiply/divide level echoes the string and the
add/subtract level folds into `NaN`. -/
theorem compute_flat_trailing_pm (s : String) (hNoOpen : '(' ∉ s.data)
    (hEnds : ∃ xs c, s.data = xs ++ [c] ∧ (c = '+' ∨ c = '-')) :
    compute s = Value.num none := by
  obtain ⟨xs, c, hsplit, hc⟩ := hEnds
  rw [compute, evaluateExpression, hsplit]
  rw [evalGo, findInnermost_of_no_open _ (hsplit ▸ hNoOpen),
    computeMD_echo_last_pm xs c hc]
  simp [toExprChars, computeAS_last_pm xs c hc]

/-! ## Claim theorems -/

/-- C1 (counterexample): the claim "compute applies
multiplication/division before addition/subtraction; in particular
compute('2+2*5') returns 12 and compute('2*2+5') returns 9" is false on
the code: `compute "2+2*5"` is `10` (the multiply/divide scan calls
`parseFloat "2+2"`, which reads only the leading `2`) and
`compute "2*2+5"` is `7` (the multiply/divide level echoes the string,
and the add/subtract scan then calls `parseFloat "2*2"`, reading `2`). -/
theorem c1_counterexample :
    compute "2+2*5" = Value.num (some 10) ∧
    compute "2+2*5" ≠ Value.num (some 12) ∧
    compute "2*2+5" = Value.num (some 7) ∧
    compute "2*2+5" ≠ Value.num (some 9) := by
  refine ⟨by decide, by decide, by decide, by decide⟩

/-- C1 (amended): on flat expressions mixing the two precedence levels
the evaluator does not implement precedence: `compute "2+2*5" = 10` and
`compute "2*2+5" = 7`.  Precedence is achieved only when brackets make
it explicit: `compute "2+(2*5)" = 12` and `compute "(2*2)+5" = 9`. -/
theorem c1_flat_mixed_behavior :
    compute "2+2*5" = Value.num (some 10) ∧
    compute "2*2+5" = Value.num (some 7) ∧
    compute "2+(2*5)" = Value.num (some 12) ∧
    compute "(2*2)+5" = Value.num (some 9) := by
  refine ⟨by decide, by decide, by decide, by decide⟩

/-- C2: the seven concrete scenarios of the spec (the repository's own
test list) all evaluate to the exact arithmetic value. -/
theorem c2_concrete_scenarios :
    compute "2+2" = Value.num (some 4) ∧
    compute "2-1" = Value.num (some 1) ∧
    compute "3*4" = Value.num (some 12) ∧
    compute "10/2" = Value.num (some 5) ∧
    compute "2+(2*5)" = Value.num (some 12) ∧
    compute "2*(2+5)" = Value.num (some 14) ∧
    compute "(2+1)*(4-3)" = Value.num (some 3) := by
  refine ⟨by decide, by decide, by decide, by decide, by decide, by decide,
    by decide⟩

/-- C3: on a flat expression whose operators all belong to the active
level (tokens of digits/dots separated by operators of the level),
`solve` left-folds the parsed numbers with the supplied callback —
strict left-to-right associativity; in particular
`compute "10-2-3" = 5` and `compute "20/2/5" = 2`. -/
theorem c3_left_fold :
    (∀ (ops : List Char) (cb : JSNum → JSNum → Char → Except (List Char) JSNum)
      (d0 : List Char) (rest : List (Char × List Char)),
      (ops = ['*', '/'] ∨ ops = ['+', '-']) →
      (∀ c ∈ d0, isNumChar c = true) →
      (∀ p ∈ rest, p.1 ∈ ops ∧ ∀ c ∈ p.2, isNumChar c = true) →
      solve (renderFlat d0 rest) ops cb =
        match foldPairs cb (parseFloat d0)
            (rest.map (fun p => (parseFloat p.2, p.1))) with
        | .error e => .error e
        | .ok r => .ok (.num r)) ∧
    compute "10-2-3" = Value.num (some 5) ∧
    compute "20/2/5" = Value.num (some 2) := by
  refine ⟨?_, by decide, by decide⟩
  intro ops cb d0 rest hops hd0 hrest
  have notop : ∀ c : Char, isNumChar c = true → c ∉ ops := by
    intro c hc
    rcases hops with rfl | rfl
    · exact (isNumChar_not_op c hc).1
    · exact (isNumChar_not_op c hc).2
  have hd0' : ∀ c ∈ d0, c ∉ ops := fun c hc => notop c (hd0 c hc)
  have hrest' : ∀ p ∈ rest, p.1 ∈ ops ∧ ∀ c ∈ p.2, c ∉ ops :=
    fun p hp => ⟨(hrest p hp).1, fun c hc => notop c ((hrest p hp).2 c hc)⟩
  have hbuf : hasBadChar (lastTok d0 rest) = false := by
    apply hasBadChar_of_numeric
    rcases lastTok_cases d0 rest with h | ⟨p, hp, h⟩
    · rw [h]; exact hd0
    · rw [h]; exact (hrest p hp).2
  simp only [solve, renderFlat, scanGo_append,
    scanGo_all_nonop ops d0 [] [] [] hd0',
    scanGo_renderTail ops rest [] [] d0 hrest', List.nil_append]
  rw [hbuf]
  simp only [Bool.false_eq_true, if_false, expNums_snoc, zip_parse_fst]

/-- C3 witness: the fold theorem applied to the rendered expression
`10-2-3` at the add/subtract level. -/
theorem c3_left_fold_witness :
    solve (renderFlat "10".data [('-', "2".data), ('-', "3".data)])
        ['+', '-'] asCb =
      match foldPairs asCb (parseFloat "10".data)
          ([('-', "2".data), ('-', "3".data)].map
            (fun p => (parseFloat p.2, p.1))) with
      | .error e => .error e
      | .ok r => .ok (.num r) :=
  c3_left_fold.1 ['+', '-'] asCb "10".data [('-', "2".data), ('-', "3".data)]
    (Or.inr rfl) (by decide) (by decide)

/-- C6: whenever the trailing buffer of a level scan contains a
character other than a digit or `.`, `solve` returns the original
expression unchanged; in particular `compute "2&3"` echoes the string
`"2&3"`. -/
theorem c6_malformed_echo :
    (∀ (expr ops : List Char)
      (cb : JSNum → JSNum → Char → Except (List Char) JSNum),
      hasBadChar (scanGo ops expr [] [] []).2.2 = true →
      solve expr ops cb = .ok (.str expr)) ∧
    compute "2&3" = Value.str "2&3".data := by
  exact ⟨solve_echo, by decide⟩

/-- C6 witness: the general part of `c6_malformed_echo` applied to the
concrete scan of `"2&3"` at the add/subtract level. -/
theorem c6_malformed_echo_witness :
    hasBadChar (scanGo ['+', '-'] "2&3".data [] [] []).2.2 = true ∧
    solve "2&3".data ['+', '-'] asCb = .ok (.str "2&3".data) :=
  ⟨by decide, c6_malformed_echo.1 "2&3".data ['+', '-'] asCb (by decide)⟩

/-- C7: `__findInnermostBrackets` returns, for the first `(`
encountered when scanning from the last character backwards that has a
`)` somewhere at or after it, the pair of that open index and the first
`)` index after it; it returns `none` exactly when no `(` has a `)`
after it; and every returned pair is an `(` strictly before a `)`. -/
theorem c7_bracket_finder (l : List Char) :
    (∀ o c, findInnermostBrackets l = some (o, c) →
      l[o]? = some '(' ∧ l[c]? = some ')' ∧ o < c ∧
      (∀ j, o ≤ j → j < c → l[j]? ≠ some ')') ∧
      (∀ i, o < i → l[i]? = some '(' → ∀ j, i < j → l[j]? ≠ some ')')) ∧
    (findInnermostBrackets l = none ↔
      ∀ i j : Nat, l[i]? = some '(' → i < j → l[j]? ≠ some ')') := by
  constructor
  · intro o c h
    obtain ⟨h1, h2, h3, h4⟩ := findInnerGo_eq_some l l.length o c h
    obtain ⟨hoc, hc, hmin⟩ := (indexOfFrom_eq_some l ')' o c).mp h3
    have hne : o ≠ c := by
      intro hEq
      rw [hEq, hc] at h2
      exact absurd h2 (by simp)
    refine ⟨h2, hc, lt_of_le_of_ne hoc hne, hmin, ?_⟩
    intro i hoi hgi j hij
    by_cases hin : i < l.length
    · exact (indexOfFrom_eq_none l ')' i).mp (h4 i hoi hin hgi) j (le_of_lt hij)
    · rw [List.getElem?_eq_none (le_of_not_lt hin)] at hgi
      exact absurd hgi (by simp)
  · rw [show findInnermostBrackets l = findInnerGo l l.length from rfl,
      findInnerGo_eq_none]
    constructor
    · intro h i j hgi hij
      by_cases hin : i < l.length
      · exact (indexOfFrom_eq_none l ')' i).mp (h i hin hgi) j (le_of_lt hij)
      · rw [List.getElem?_eq_none (le_of_not_lt hin)] at hgi
        exact absurd hgi (by simp)
    · intro h i hi hgi
      rw [indexOfFrom_eq_none]
      intro m him
      rcases eq_or_lt_of_le him with rfl | hlt
      · intro hm
        rw [hgi] at hm
        exact absurd hm (by simp)
      · exact h i m hgi hlt

/-- C7 witness: the finder's characterization, applied to the concrete
expression `(2)`, whose finder answer is the pair `(0, 2)`. -/
theorem c7_bracket_finder_witness :
    "(2)".data[(0 : Nat)]? = some '(' ∧ "(2)".data[(2 : Nat)]? = some ')' ∧
    (0 : Nat) < 2 ∧
    (∀ j : Nat, 0 ≤ j → j < 2 → "(2)".data[j]? ≠ some ')') ∧
    (∀ i : Nat, 0 < i → "(2)".data[i]? = some '(' →
      ∀ j : Nat, i < j → "(2)".data[j]? ≠ some ')') :=
  (c7_bracket_finder "(2)".data).1 0 2 (by decide)

/-- C4: while a bracket pair is found, `evaluateExpression` replaces
the bracketed substring (exclusive slice between the pair) by the
recursively computed, stringified value and re-scans the result; on the
nested concrete inputs this resolves innermost-first:
`compute "12*(12-(6+6))" = 0` and `compute "12*(12-(6))" = 72`. -/
theorem c4_innermost_first :
    (∀ (fuel : Nat) (expr : List Char) (o c : Nat),
      findInnermostBrackets expr = some (o, c) →
      evalGo (fuel + 1) expr =
        match evalGo fuel ((expr.drop (o + 1)).take (c - (o + 1))) with
        | .error e => .error e
        | .ok v => evalGo fuel (expr.take o ++ toExprChars v ++ expr.drop (c + 1))) ∧
    compute "12*(12-(6+6))" = Value.num (some 0) ∧
    compute "12*(12-(6))" = Value.num (some 72) := by
  refine ⟨?_, by decide, by decide⟩
  intro fuel expr o c h
  rw [evalGo, h]

/-- C4 witness: the unfolding equation applied to the concrete
expression `(2)` with one unit of fuel. -/
theorem c4_innermost_first_witness :
    evalGo 2 "(2)".data =
      match evalGo 1 (("(2)".data.drop 1).take 1) with
      | .error e => .error e
      | .ok v => evalGo 1 ("(2)".data.take 0 ++ toExprChars v ++ "(2)".data.drop 3) :=
  c4_innermost_first.1 1 "(2)".data 0 2 (by decide)

/-- C5: in the multiply/divide callback, `*` always succeeds; `/`
throws exactly when the right operand is `0` (a `NaN` right operand
does not throw); the add/subtract callback never throws; a thrown
error propagates to `compute`, which catches it and returns its display
string; in particular `compute "5/0"` is the text
`Error: Cannot divide by zero`. -/
theorem c5_division_by_zero :
    (∀ a b : JSNum, mdCb a b '*' = .ok (jsMul a b)) ∧
    (∀ a b : JSNum, (∃ e, mdCb a b '/' = .error e) ↔ b = some 0) ∧
    (∀ (a b : JSNum) (op : Char), asCb a b op = .ok (asVal a b op)) ∧
    (∀ (s : String) (e : List Char), evaluateExpression s.data = .error e →
      compute s = .str (errorTag ++ e)) ∧
    compute "5/0" = Value.str "Error: Cannot divide by zero".data := by
  have hslash : ¬(('/' : Char) = '*') := by decide
  refine ⟨fun a b => by simp [mdCb], ?_, fun a b op => rfl, ?_, by decide⟩
  · intro a b
    constructor
    · rintro ⟨e, h⟩
      by_cases hb : b = some 0
      · exact hb
      · rw [mdCb, if_neg hslash, if_neg hb] at h
        exact absurd h (by simp)
    · intro hb
      exact ⟨divMsg, by rw [mdCb, if_neg hslash, if_pos hb]⟩
  · intro s e h
    simp [compute, h]

/-- C5 witness: the propagation clause applied at the concrete input
`5/0`, whose evaluation throws the division-by-zero error. -/
theorem c5_division_by_zero_witness :
    compute "5/0" = Value.str (errorTag ++ divMsg) :=
  c5_division_by_zero.2.2.2.1 "5/0" divMsg rfl

/-- C8: `compute` is total and returns a dynamic value that is either
a string or a number, never an uncaught exception: every `error`
outcome of `evaluateExpression` is converted to error text. -/
theorem c8_total_output :
    (∀ s : String,
      (∃ cs, compute s = Value.str cs) ∨ (∃ n, compute s = Value.num n)) ∧
    (∀ (s : String) (e : List Char), evaluateExpression s.data = .error e →
      compute s = Value.str (errorTag ++ e)) := by
  constructor
  · intro s
    cases h : compute s with
    | str cs => exact Or.inl ⟨cs, rfl⟩
    | num n => exact Or.inr ⟨n, rfl⟩
  · intro s e h
    simp [compute, h]

/-- C8 witness: the error-conversion clause applied at the concrete
input `1/0`. -/
theorem c8_total_output_witness :
    compute "1/0" = Value.str (errorTag ++ divMsg) :=
  c8_total_output.2 "1/0" divMsg rfl

/-- C9: the `Calculator` holds no mutable state, so a sequence of
`compute` calls against one instance leaves the instance unchanged and
produces exactly the outputs of the pure function `compute` applied to
each expression — re-evaluating an expression, in any call order,
yields identical output. -/
theorem c9_stateless (st : CalculatorState) (es : List String) :
    runCalls st es = (es.map compute, st) := by
  induction es with
  | nil => rfl
  | cons e es ih => simp [runCalls, computeWithState, ih]

/-- C10 (counterexample): the claim fails for `5/0*`, which ends with
the operator `*` of the active multiply/divide level: its trailing
buffer is empty and parses as `NaN`, but the fold throws on `5/0`
before reaching it, so `compute` returns the division-by-zero error
message, not `NaN`. -/
theorem c10_counterexample :
    compute "5/0*" = Value.str "Error: Cannot divide by zero".data ∧
    compute "5/0*" ≠ Value.num none := by
  exact ⟨by decide, by decide⟩

/-- C10 (amended): for a bracket-free expression ending in `+` or `-`,
the multiply/divide level echoes the string (its trailing buffer ends
in the operator and fails the check), the add/subtract scan then leaves
an empty trailing buffer which passes the check and parses as `NaN`,
and `compute` returns the number `NaN`; leading operators behave the
same way when nothing throws earlier, e.g. `compute "-5" = NaN`. -/
theorem c10_trailing_operator :
    (∀ s : String, '(' ∉ s.data →
      (∃ xs c, s.data = xs ++ [c] ∧ (c = '+' ∨ c = '-')) →
      compute s = Value.num none) ∧
    compute "2+" = Value.num none ∧
    compute "-5" = Value.num none :=
  ⟨compute_flat_trailing_pm, by decide, by decide⟩

/-- C10 witness: the amended theorem applied at the concrete input
`2+`. -/
theorem c10_trailing_operator_witness :
    compute "2+" = Value.num none :=
  c10_trailing_operator.1 "2+" (by decide) ⟨['2'], '+', rfl, Or.inl rfl⟩

